import Mathlib

/- Shallow embedding of `src/email.c`, a PostgreSQL user-defined scalar type
   `EmailAddress` (text parse, render, binary send/recv, and the three-way
   comparison backing the B-tree operator class).

   Modelling conventions:
   * a byte is a `Nat` below 256; a C string is the list of its bytes before
     the NUL terminator (so the lists never contain 0 unless stated);
   * C `char` is signed on the reference platform, so `isValidCharacter`
     reinterprets the byte as a signed value before its range tests;
   * host-runtime glue (fmgr calling convention, palloc, the varlena length
     header that `email_in` always sets to VARHDRSZ + 256, the per-character
     printf tracing) carries no information and is not modelled;
   * the C code copies scanned substrings with `memcpy`/`strcpy` into
     fixed-size stack and struct buffers without any bounds check.  The copies
     are modelled by their effective result on the byte lists (the substring
     up to the original NUL terminator); the missing bounds checks themselves
     are the subject of the capacity claims and are discussed at the theorems
     that settle them. -/

/-- Canonical record of `email.c` (struct `EmailAddress`, lines 26-31): two
NUL-terminated text fields, `local` and `domain`, each backed in C by a
128-byte array.  The `int32 length` varlena header is host glue (always the
constant VARHDRSZ + 256) and is omitted from the model. -/
structure EmailAddress where
  «local» : List Nat
  domain : List Nat
deriving DecidableEq

/-- Reinterpretation of a byte as the signed C `char` value in [-128, 127]
that the comparisons of `isValidCharacter` actually see. -/
def toSignedChar (b : Nat) : Int :=
  if b < 128 then (b : Int) else (b : Int) - 256

/-- Character classifier `isValidCharacter` (email.c lines 219-234): a chain
of signed range exclusions.  The accepted complement of the four excluded
ranges is 45 `-`, 46 `.`, 48-57 `0-9`, 64 `@` (the gap between the
`c > 57 && c < 64` test and the `c > 90` test), 65-90 `A-Z`, 97-122 `a-z`. -/
def isValidCharacter (b : Nat) : Bool :=
  let c := toSignedChar b
  if c < 48 ∧ c ≠ 46 ∧ c ≠ 45 then false
  else if c > 57 ∧ c < 64 then false
  else if c > 90 ∧ c < 97 then false
  else if c > 122 then false
  else true

/-- Loop of `getLocalStringEnd` (email.c lines 194-208).  `rest` is the
suffix of the input starting at index `i` (the C loop reads `str[i]` while
`i < len && c != '@'`); `c` is the byte read by the previous iteration
(0 before the first one, from the C declaration `char c = 0`).  Returns the
loop-exit values `(i, c, error)`; on `break` the index is not incremented. -/
def localScanLoop : List Nat → Nat → Nat → Nat × Nat × Bool
  | [], i, c => (i, c, false)
  | ch :: rest, i, c =>
    if c = 64 then (i, c, false)
    else if isValidCharacter ch = false then (i, ch, true)
    else if i = 0 ∧ ch = 64 then (i, ch, true)
    else localScanLoop rest (i + 1) ch

/-- Function `getLocalStringEnd` (email.c lines 189-217): runs the scan loop
from index 0, then flags the "No Domain" error when the separator was the
final byte (`c == '@' && i >= len`), and returns 0 on error and the exit
index otherwise.  When the input holds no `@` at all the loop exhausts the
input with `error == FALSE`, so the input length itself is returned. -/
def getLocalStringEnd (str : List Nat) : Nat :=
  match localScanLoop str 0 0 with
  | (i, c, error) => if error = true ∨ (c = 64 ∧ str.length ≤ i) then 0 else i

/-- Loop of `getDomainStringEnd` (email.c lines 162-175) over the suffix of
the input starting at index `i`: any classifier-invalid byte or a second
`@` aborts with an error. -/
def domainScanLoop : List Nat → Nat → Nat × Bool
  | [], i => (i, false)
  | ch :: rest, i =>
    if isValidCharacter ch = false then (i, true)
    else if ch = 64 then (i, true)
    else domainScanLoop rest (i + 1)

/-- Function `getDomainStringEnd` (email.c lines 157-180): scans from
`start` to the end of input and returns 0 on error, the exit index (the
input length) otherwise.  An empty span (`start` = input length) is not an
error: the loop body never runs and `start` is returned. -/
def getDomainStringEnd (start : Nat) (str : List Nat) : Nat :=
  match domainScanLoop (str.drop start) start with
  | (i, error) => if error = true then 0 else i

/-- Test for an ASCII letter of either case.  The regexes of
`checkLocalIsValid` are compiled with REG_ICASE (email.c line 144), so the
class `[A-Z]` matches both cases. -/
def isAlphaNoCase (c : Nat) : Bool :=
  decide ((65 ≤ c ∧ c ≤ 90) ∨ (97 ≤ c ∧ c ≤ 122))

/-- Test for an ASCII letter or digit, case-folded; the class `[A-Z0-9]`
under REG_ICASE. -/
def isAlnumNoCase (c : Nat) : Bool :=
  isAlphaNoCase c || decide (48 ≤ c ∧ c ≤ 57)

/-- Semantics of `regexMatch(local, "^[A-Z]")` under REG_EXTENDED|REG_ICASE
(email.c lines 124 and 139-151): the string matches exactly when its first
byte is an ASCII letter of either case. -/
def matchStartAlphaNoCase : List Nat → Bool
  | [] => false
  | c :: _ => isAlphaNoCase c

/-- Tail of the second regex of `checkLocalIsValid` after its leading
backspace and first letter: consume letters/digits until a byte 8 closes the
match.  Since 8 is not in `[A-Z0-9]`, this first-8 scan is exact. -/
def hiddenTail : List Nat → Bool
  | [] => false
  | c :: rest =>
    if c = 8 then true
    else if isAlnumNoCase c = true then hiddenTail rest
    else false

/-- Match of the second regex of `checkLocalIsValid` anchored at the current
position.  In the C source the pattern is written `"\b[A-Z]+[A-Z0-9]*\b"`,
but `\b` inside a C string literal is the backspace character 0x08 (POSIX
ERE has no word-boundary escape), so the pattern demands a literal byte 8,
then one or more letters and further letters/digits, then another byte 8. -/
def hiddenAt : List Nat → Bool
  | 8 :: c :: rest => isAlphaNoCase c && hiddenTail rest
  | _ => false

/-- Search of the second regex of `checkLocalIsValid` at every position of
the subject string, as `regexec` does. -/
def hiddenMatch : List Nat → Bool
  | [] => false
  | c :: rest => hiddenAt (c :: rest) || hiddenMatch rest

/-- Validator `checkLocalIsValid` (email.c lines 122-134): valid iff the
first regex `"^[A-Z]"` (ICASE) matches and the second
`"\b[A-Z]+[A-Z0-9]*\b"` does not.  In C an invalid local raises the
invalid-syntax ereport; the Boolean is returned here and `email_in` maps
`false` to the error outcome. -/
def checkLocalIsValid (lpart : List Nat) : Bool :=
  matchStartAlphaNoCase lpart && ! hiddenMatch lpart

/-- Parser `email_in` (email.c lines 74-116).  `none` models the
invalid-syntax ereport (raised when either scan returns 0 or the validator
rejects).  The extracted substrings: the local buffer receives the first
`i - 1` bytes (`memcpy(local, &str[0], i - 1)`); the domain copy
`memcpy(domain, &str[at_pos], i - 1)` overruns its variable-length buffer
but, because the original NUL terminator travels with the copy, the string
it produces is exactly the suffix of the input from `at_pos`.  The final
`strcpy` calls target the fixed 128-byte struct fields with no length
check, so the unbounded lists stored here agree with the C record only
when each field holds at most 127 bytes; on longer fields the C copy
overflows the struct while still raising no error, so acceptance and the
absence of an error are modelled faithfully for any length, but the stored
field contents are only trusted within the 127-byte capacity (the
round-trip theorem below therefore assumes it, and the over-capacity
theorem asserts acceptance only). -/
def email_in (str : List Nat) : Option EmailAddress :=
  let i := getLocalStringEnd str
  if i = 0 then none
  else
    let lpart := str.take (i - 1)
    let at_pos := i
    let j := getDomainStringEnd at_pos str
    if j = 0 then none
    else
      let dpart := str.drop at_pos
      if checkLocalIsValid lpart = true then some ⟨lpart, dpart⟩ else none

/-- Renderer `email_out` (email.c lines 239-248):
`snprintf(result, 256, "%s@%s", email->local, email->domain)`, which emits
the local bytes, the separator, the domain bytes, and truncates the result
to 255 bytes (the 256th is the terminator). -/
def email_out (e : EmailAddress) : List Nat :=
  (e.«local» ++ 64 :: e.domain).take 255

/-- Binary encoder `email_send` (email.c lines 278-288): `pq_sendstring`
writes the local string and then the domain string, each with its NUL
terminator. -/
def email_send (e : EmailAddress) : List Nat :=
  e.«local» ++ 0 :: (e.domain ++ [0])

/-- Semantics of `pq_getmsgstring`: read one NUL-terminated string from the
buffer, returning the string and the remaining bytes. -/
def readString : List Nat → List Nat × List Nat
  | [] => ([], [])
  | c :: rest =>
    if c = 0 then ([], rest)
    else ((readString rest).1.cons c, (readString rest).2)

/-- Binary decoder `email_recv` (email.c lines 258-274): reads the local
string and then the domain string from the message buffer and stores them in
a fresh zeroed record.  No validation of any kind is applied. -/
def email_recv (buf : List Nat) : EmailAddress :=
  let p := readString buf
  let q := readString p.2
  ⟨p.1, q.1⟩

/-- ASCII case fold used by `strcasecmp` in the C locale: uppercase letters
map to lowercase, all other bytes are unchanged. -/
def toLowerByte (b : Nat) : Nat :=
  if 65 ≤ b ∧ b ≤ 90 then b + 32 else b

/-- Sign of the libc `strcasecmp` on two NUL-terminated strings: byte-wise
comparison of case-folded bytes, a shorter string comparing less when it is
a prefix (its terminator folds to 0, below any string byte).  The callers in
email.c use only the sign, which is what is modelled. -/
def strcasecmp : List Nat → List Nat → Int
  | [], [] => 0
  | [], _ :: _ => -1
  | _ :: _, [] => 1
  | a :: as, b :: bs =>
    if toLowerByte a < toLowerByte b then -1
    else if toLowerByte b < toLowerByte a then 1
    else strcasecmp as bs

/-- Three-way comparison `email_cmp_internal` (email.c lines 341-356):
case-insensitive comparison of the domains, and of the locals only when the
domains tie. -/
def email_cmp_internal (a b : EmailAddress) : Int :=
  if strcasecmp a.domain b.domain < 0 then -1
  else if strcasecmp a.domain b.domain > 0 then 1
  else if strcasecmp a.domain b.domain = 0 then
    if strcasecmp a.«local» b.«local» < 0 then -1
    else if strcasecmp a.«local» b.«local» > 0 then 1
    else 0
  else 0

/-- Domain-only comparison `domain_cmp_internal` (email.c lines 361-370). -/
def domain_cmp_internal (a b : EmailAddress) : Int :=
  if strcasecmp a.domain b.domain < 0 then -1
  else if strcasecmp a.domain b.domain > 0 then 1
  else 0

/-- Derived predicate `email_lt` (email.c lines 376-382):
`email_cmp_internal(a, b) < 0`. -/
def email_lt (a b : EmailAddress) : Bool :=
  decide (email_cmp_internal a b < 0)

/-- Bytes of the input literal `"foo.example.com"` (no separator). -/
def fooExampleCom : List Nat :=
  [102, 111, 111, 46, 101, 120, 97, 109, 112, 108, 101, 46, 99, 111, 109]

/-- Bytes of `"foo.example.co"`: the local buffer `email_in` extracts from
`fooExampleCom`, the input minus its final byte. -/
def fooLocalPart : List Nat :=
  [102, 111, 111, 46, 101, 120, 97, 109, 112, 108, 101, 46, 99, 111]

/-- Bytes of the input literal `"hello@world.com"` (lowercase local), one of
the rows the accompanying SQL script inserts successfully. -/
def helloLowerInput : List Nat :=
  [104, 101, 108, 108, 111, 64, 119, 111, 114, 108, 100, 46, 99, 111, 109]

/-- Bytes of the input literal `"Hello@world.com"`. -/
def helloUpperInput : List Nat :=
  [72, 101, 108, 108, 111, 64, 119, 111, 114, 108, 100, 46, 99, 111, 109]

/-- An accepted input of 265 bytes: a 261-byte local part, the separator,
and the domain `"b.c"`.  Its render exceeds the 255-byte snprintf bound. -/
def longLocalInput : List Nat :=
  65 :: (List.replicate 260 97 ++ 64 :: [98, 46, 99])

/-- An input whose local part `'B'` repeated 128 times exceeds the 127-byte
field capacity, followed by `"@c.d"`. -/
def overCapacityInput : List Nat :=
  List.replicate 128 66 ++ 64 :: [99, 46, 100]

theorem strcasecmp_cases (a : List Nat) : ∀ b, strcasecmp a b = -1 ∨ strcasecmp a b = 0 ∨ strcasecmp a b = 1 := by
  induction a with
  | nil => intro b; cases b <;> simp [strcasecmp]
  | cons x xs ih =>
    intro b
    cases b with
    | nil => simp [strcasecmp]
    | cons y ys =>
      simp only [strcasecmp]
      split_ifs
      · simp
      · simp
      · exact ih ys

theorem strcasecmp_antisymm (a : List Nat) : ∀ b, strcasecmp a b = -strcasecmp b a := by
  induction a with
  | nil => intro b; cases b <;> simp [strcasecmp]
  | cons x xs ih =>
    intro b
    cases b with
    | nil => simp [strcasecmp]
    | cons y ys =>
      simp only [strcasecmp]
      split_ifs <;> first | omega | exact ih ys

theorem strcasecmp_self (l : List Nat) : strcasecmp l l = 0 := by
  induction l with
  | nil => rfl
  | cons x xs ih => simp [strcasecmp, ih]

theorem strcasecmp_eq_zero_iff (a : List Nat) :
    ∀ b, strcasecmp a b = 0 ↔ a.map toLowerByte = b.map toLowerByte := by
  induction a with
  | nil => intro b; cases b <;> simp [strcasecmp]
  | cons x xs ih =>
    intro b
    cases b with
    | nil => simp [strcasecmp]
    | cons y ys =>
      simp only [strcasecmp, List.map_cons]
      rcases lt_trichotomy (toLowerByte x) (toLowerByte y) with h | h | h
      · rw [if_pos h]
        constructor
        · intro h0; exact absurd h0 (by norm_num)
        · intro he; injection he with h1 _; omega
      · rw [if_neg (by omega), if_neg (by omega), h, ih ys]
        simp
      · rw [if_neg (by omega), if_pos h]
        constructor
        · intro h0; exact absurd h0 (by norm_num)
        · intro he; injection he with h1 _; omega

theorem localScanLoop_at64 (rest : List Nat) (i : Nat) :
    localScanLoop rest i 64 = (i, 64, false) := by
  cases rest <;> simp [localScanLoop]

theorem localScanLoop_found (rest : List Nat) : ∀ i c j c2, c ≠ 64 →
    localScanLoop rest i c = (j, c2, false) → c2 = 64 →
    ∃ k, k < rest.length ∧ rest.getD k 0 = 64 ∧ j = i + k + 1 := by
  induction rest with
  | nil =>
    intro i c j c2 hc heq h64
    simp only [localScanLoop, Prod.mk.injEq] at heq
    exact absurd (heq.2.1.trans h64) hc
  | cons ch t ih =>
    intro i c j c2 hc heq h64
    simp only [localScanLoop] at heq
    rw [if_neg hc] at heq
    by_cases hv : isValidCharacter ch = false
    · rw [if_pos hv] at heq; simp at heq
    · rw [if_neg hv] at heq
      by_cases h0 : i = 0 ∧ ch = 64
      · rw [if_pos h0] at heq; simp at heq
      · rw [if_neg h0] at heq
        by_cases hch : ch = 64
        · subst hch
          rw [localScanLoop_at64] at heq
          simp only [Prod.mk.injEq] at heq
          refine ⟨0, by simp, by simp [List.getD_cons_zero], by omega⟩
        · obtain ⟨k, hk, hg, hj⟩ := ih (i + 1) ch j c2 hch heq h64
          refine ⟨k + 1, by simpa using Nat.succ_lt_succ hk, by simpa [List.getD_cons_succ] using hg, by omega⟩

theorem localScanLoop_none (rest : List Nat) : ∀ i c j c2,
    localScanLoop rest i c = (j, c2, false) → c2 ≠ 64 → c ≠ 64 →
    ∀ x ∈ rest, x ≠ 64 := by
  induction rest with
  | nil => intro i c j c2 _ _ _ x hx; simp at hx
  | cons ch t ih =>
    intro i c j c2 heq hc2 hc x hx
    simp only [localScanLoop] at heq
    rw [if_neg hc] at heq
    by_cases hv : isValidCharacter ch = false
    · rw [if_pos hv] at heq; simp at heq
    · rw [if_neg hv] at heq
      by_cases h0 : i = 0 ∧ ch = 64
      · rw [if_pos h0] at heq; simp at heq
      · rw [if_neg h0] at heq
        by_cases hch : ch = 64
        · subst hch
          rw [localScanLoop_at64] at heq
          simp only [Prod.mk.injEq] at heq
          exact absurd heq.2.1.symm hc2
        · rcases List.mem_cons.mp hx with h | h
          · rw [h]; exact hch
          · exact ih (i + 1) ch j c2 heq hc2 hch x h

theorem getLocalStringEnd_spec (s : List Nat) (hne : getLocalStringEnd s ≠ 0) (hat : 64 ∈ s) :
    getLocalStringEnd s - 1 < s.length ∧ s.getD (getLocalStringEnd s - 1) 0 = 64 := by
  rcases hscan : localScanLoop s 0 0 with ⟨j, c2, err⟩
  have hdef : getLocalStringEnd s =
      if err = true ∨ (c2 = 64 ∧ s.length ≤ j) then 0 else j := by
    simp only [getLocalStringEnd, hscan]
  rw [hdef] at hne ⊢
  split_ifs at hne ⊢ with hcond
  · exact absurd rfl hne
  · push_neg at hcond
    obtain ⟨herr, _⟩ := hcond
    have herr' : err = false := by
      cases err
      · rfl
      · exact absurd rfl herr
    rw [herr'] at hscan
    by_cases hc2 : c2 = 64
    · obtain ⟨k, hk, hg, hj⟩ := localScanLoop_found s 0 0 j c2 (by decide) hscan hc2
      constructor
      · omega
      · rw [show j - 1 = k by omega]; exact hg
    · have hall := localScanLoop_none s 0 0 j c2 hscan hc2 (by decide)
      exact absurd rfl (hall 64 hat)

theorem take_getD_append_drop (l : List Nat) : ∀ k, k < l.length → l.getD k 0 = 64 →
    l.take k ++ 64 :: l.drop (k + 1) = l := by
  induction l with
  | nil => intro k hk _; simp at hk
  | cons c t ih =>
    intro k hk hg
    cases k with
    | zero =>
      simp only [List.getD_cons_zero] at hg
      simp [hg]
    | succ k =>
      simp only [List.getD_cons_succ] at hg
      have := ih k (by simpa using Nat.lt_of_succ_lt_succ hk) hg
      simp only [List.take_succ_cons, List.drop_succ_cons, List.cons_append]
      rw [this]

theorem readString_append (l r : List Nat) (h : 0 ∉ l) :
    readString (l ++ 0 :: r) = (l, r) := by
  induction l with
  | nil => simp [readString]
  | cons c cs ih =>
    have hc : ¬(c = 0) := fun e => h (by simp [e])
    have h2 : 0 ∉ cs := fun m => h (List.mem_cons_of_mem _ m)
    simp [readString, hc, ih h2]

/-- Counterexample to claim C1 as stated: the classifier accepts the byte 64
(`@`), which lies in the gap between the exclusion `c > 57 && c < 64` and the
exclusion `c > 90 && c < 97`, while the claim lists 64 among the rejected
bytes.  The scanners compensate by testing `c == '@'` separately after the
classifier. -/
theorem isValidCharacter_accepts_separator :
    isValidCharacter 64 = true ∧
      ¬((64 : Nat) = 46 ∨ (64 : Nat) = 45 ∨ ((48 : Nat) ≤ 64 ∧ (64 : Nat) ≤ 57) ∨
        ((65 : Nat) ≤ 64 ∧ (64 : Nat) ≤ 90) ∨ ((97 : Nat) ≤ 64 ∧ (64 : Nat) ≤ 122)) := by
  decide

/-- Claim C1 (amended): over the byte range, `isValidCharacter` accepts
exactly `-` (45), `.` (46), the digits 48-57, the separator `@` (64), the
uppercase letters 65-90 and the lowercase letters 97-122; every other byte,
including every byte above 127 (negative as a signed char), is rejected. -/
theorem isValidCharacter_characterization (b : Nat) (hb : b < 256) :
    isValidCharacter b = true ↔
      (b = 45 ∨ b = 46 ∨ (48 ≤ b ∧ b ≤ 57) ∨ b = 64 ∨
        (65 ≤ b ∧ b ≤ 90) ∨ (97 ≤ b ∧ b ≤ 122)) := by
  revert b
  set_option maxRecDepth 100000 in decide

/-- Witness for the amended C1 at the concrete byte 64. -/
theorem isValidCharacter_characterization_witness :
    (64 : Nat) < 256 ∧
      (isValidCharacter 64 = true ↔
        ((64 : Nat) = 45 ∨ (64 : Nat) = 46 ∨ ((48 : Nat) ≤ 64 ∧ (64 : Nat) ≤ 57) ∨
          (64 : Nat) = 64 ∨ ((65 : Nat) ≤ 64 ∧ (64 : Nat) ≤ 90) ∨
          ((97 : Nat) ≤ 64 ∧ (64 : Nat) ≤ 122))) :=
  ⟨by decide, isValidCharacter_characterization 64 (by decide)⟩

/-- Claim C2 (code bug, evaluated at the failing input): on the separator-free
input `"foo.example.com"` the local scan exhausts the input with
`error == FALSE` and returns the input length 15 instead of 0, the domain
scan over the empty suffix also returns 15, and `email_in` raises no error at
all: it reaches the copies (in C through the variable-length array
`char domain[i - (at_pos + 1)]`, whose size is then -1) and produces a record
holding the input minus its last byte as local part and an empty domain,
instead of failing with the missing-separator error the claim requires. -/
theorem email_in_accepts_missing_separator :
    getLocalStringEnd fooExampleCom = 15 ∧
    getDomainStringEnd 15 fooExampleCom = 15 ∧
    email_in fooExampleCom = some ⟨fooLocalPart, []⟩ := by
  decide

/-- Counterexample to claim C3 as stated: `"hello@world.com"` — a row the
accompanying SQL script inserts successfully — is accepted by `email_in`
although its local part starts with the lowercase byte 104, because
`regexMatch` compiles `"^[A-Z]"` with REG_ICASE. -/
theorem email_in_accepts_lowercase_local :
    email_in helloLowerInput =
      some ⟨[104, 101, 108, 108, 111], [119, 111, 114, 108, 100, 46, 99, 111, 109]⟩ ∧
    ¬((65 : Nat) ≤ 104 ∧ (104 : Nat) ≤ 90) := by
  decide

/-- Claim C3 (amended): every record produced by `email_in` has a non-empty
local part whose first byte is an ASCII letter of either case (the REG_ICASE
flag folds the `[A-Z]` class); a local part beginning with any non-letter is
a validation failure. -/
theorem email_in_local_starts_with_letter (s : List Nat) (e : EmailAddress)
    (h : email_in s = some e) :
    e.«local» ≠ [] ∧ isAlphaNoCase (e.«local».headD 0) = true := by
  simp only [email_in] at h
  split_ifs at h with h1 h2 h3
  have he := Option.some.inj h
  subst he
  simp only [checkLocalIsValid, Bool.and_eq_true] at h3
  obtain ⟨hm, _⟩ := h3
  rcases hl : s.take (getLocalStringEnd s - 1) with _ | ⟨c, rest⟩
  · rw [hl] at hm
    simp [matchStartAlphaNoCase] at hm
  · rw [hl] at hm
    simp only [matchStartAlphaNoCase] at hm
    constructor
    · simp [hl]
    · simpa [hl] using hm

/-- Witness for the amended C3 at the accepted input `"Hello@world.com"`. -/
theorem email_in_local_starts_with_letter_witness :
    (EmailAddress.mk [72, 101, 108, 108, 111]
        [119, 111, 114, 108, 100, 46, 99, 111, 109]).«local» ≠ [] ∧
      isAlphaNoCase ((EmailAddress.mk [72, 101, 108, 108, 111]
        [119, 111, 114, 108, 100, 46, 99, 111, 109]).«local».headD 0) = true :=
  email_in_local_starts_with_letter helloUpperInput _ (by decide)

/-- Claim C4 (confirmed): `email_cmp_internal` returns the case-insensitive
domain comparison when it is non-zero and the case-insensitive local
comparison otherwise, and it returns 0 exactly when both fields are equal
after ASCII case folding. -/
theorem email_cmp_internal_spec (a b : EmailAddress) :
    email_cmp_internal a b =
      (if strcasecmp a.domain b.domain = 0 then strcasecmp a.«local» b.«local»
       else strcasecmp a.domain b.domain) ∧
    (email_cmp_internal a b = 0 ↔
      a.domain.map toLowerByte = b.domain.map toLowerByte ∧
      a.«local».map toLowerByte = b.«local».map toLowerByte) := by
  have hdz := strcasecmp_eq_zero_iff a.domain b.domain
  have hlz := strcasecmp_eq_zero_iff a.«local» b.«local»
  rw [← hdz, ← hlz]
  rcases strcasecmp_cases a.domain b.domain with hd | hd | hd <;>
    rcases strcasecmp_cases a.«local» b.«local» with hl | hl | hl <;>
      rw [email_cmp_internal, hd, hl] <;> norm_num

/-- Claim C5 (confirmed): the three-way comparison is antisymmetric,
`email_cmp_internal a b = -email_cmp_internal b a`, and consequently the
derived strict order `email_lt` never holds in both directions at once. -/
theorem email_cmp_internal_antisymm (a b : EmailAddress) :
    email_cmp_internal a b = -email_cmp_internal b a ∧
    ¬(email_lt a b = true ∧ email_lt b a = true) := by
  have key : email_cmp_internal a b = -email_cmp_internal b a := by
    have hd := strcasecmp_antisymm a.domain b.domain
    have hl := strcasecmp_antisymm a.«local» b.«local»
    rcases strcasecmp_cases b.domain a.domain with h | h | h <;>
      rcases strcasecmp_cases b.«local» a.«local» with h2 | h2 | h2 <;>
        rw [h] at hd <;> rw [h2] at hl <;> norm_num at hd hl <;>
          simp [email_cmp_internal, hd, hl, h, h2]
  refine ⟨key, ?_⟩
  rintro ⟨h1, h2⟩
  simp only [email_lt, decide_eq_true_eq] at h1 h2
  omega

/-- Counterexample to claim C6 as stated, at two accepted inputs.  First, the
separator-free `"foo.example.com"` is accepted (see the C2 bug) and renders
as `"foo.example.co@"`, not the original input.  Second, an input whose
261-byte local part far exceeds the 127-byte field capacity is accepted with
no error; its render cannot return the input (here the 255-byte snprintf
bound truncates it, and in C the `strcpy` has already overflowed the
128-byte `local` field, garbling the record).  Any local part of 128 bytes
or more triggers that overflow, so the round trip can only be asserted for
records whose fields fit their capacity. -/
theorem email_in_out_not_inverse :
    email_in fooExampleCom = some ⟨fooLocalPart, []⟩ ∧
    email_out ⟨fooLocalPart, []⟩ ≠ fooExampleCom ∧
    email_in longLocalInput = some ⟨65 :: List.replicate 260 97, [98, 46, 99]⟩ ∧
    email_out ⟨65 :: List.replicate 260 97, [98, 46, 99]⟩ ≠ longLocalInput := by
  set_option maxRecDepth 100000 in decide

/-- Claim C6 (amended): rendering inverts parsing on every accepted input
that actually contains the separator byte 64 and whose two extracted fields
each fit the 127-byte field capacity — the records on which the C `strcpy`
copies are faithful rather than overflowing.  For those inputs `email_out`
applied to the record returns exactly the input, byte for byte (the total
length is then at most 127 + 1 + 127 = 255, within the snprintf buffer). -/
theorem email_in_out_roundtrip (s : List Nat) (e : EmailAddress)
    (hacc : email_in s = some e) (hat : 64 ∈ s)
    (hloc : e.«local».length ≤ 127) (hdom : e.domain.length ≤ 127) :
    email_out e = s := by
  simp only [email_in] at hacc
  split_ifs at hacc with h1 h2 h3
  have he := Option.some.inj hacc
  subst he
  obtain ⟨hlt, hgd⟩ := getLocalStringEnd_spec s h1 hat
  have hpos : 1 ≤ getLocalStringEnd s := Nat.pos_of_ne_zero h1
  have hrec : s.take (getLocalStringEnd s - 1) ++ 64 :: s.drop (getLocalStringEnd s) = s := by
    have hr := take_getD_append_drop s (getLocalStringEnd s - 1) hlt hgd
    rwa [show getLocalStringEnd s - 1 + 1 = getLocalStringEnd s by omega] at hr
  have hloc' : getLocalStringEnd s - 1 ≤ 127 := by
    have hl : (s.take (getLocalStringEnd s - 1)).length ≤ 127 := hloc
    rwa [List.length_take, Nat.min_eq_left (Nat.le_of_lt hlt)] at hl
  have hdom' : s.length - getLocalStringEnd s ≤ 127 := by
    have hd : (s.drop (getLocalStringEnd s)).length ≤ 127 := hdom
    rwa [List.length_drop] at hd
  have hlen : s.length ≤ 255 := by omega
  show (s.take (getLocalStringEnd s - 1) ++ 64 :: s.drop (getLocalStringEnd s)).take 255 = s
  rw [hrec]
  exact List.take_of_length_le hlen

/-- Witness for the amended C6 at the accepted input `"Hello@world.com"`,
whose 5-byte local part and 9-byte domain fit the field capacity. -/
theorem email_in_out_roundtrip_witness :
    email_out ⟨[72, 101, 108, 108, 111], [119, 111, 114, 108, 100, 46, 99, 111, 109]⟩ =
      helloUpperInput :=
  email_in_out_roundtrip helloUpperInput
    ⟨[72, 101, 108, 108, 111], [119, 111, 114, 108, 100, 46, 99, 111, 109]⟩
    (by decide) (by decide) (by decide) (by decide)

/-- Claim C7 (confirmed): decoding inverts encoding.  For any record whose
fields are genuine C strings (no interior NUL) within the 127-byte field
capacity — as every parse-constructed record is — `email_recv` applied to
the bytes `email_send` wrote (local string first, then domain string)
reproduces the record exactly. -/
theorem email_recv_send_roundtrip (e : EmailAddress)
    (h1 : 0 ∉ e.«local») (h2 : 0 ∉ e.domain)
    (h3 : e.«local».length ≤ 127) (h4 : e.domain.length ≤ 127) :
    email_recv (email_send e) = e := by
  simp only [email_send, email_recv]
  rw [readString_append _ _ h1]
  rw [readString_append _ _ h2]

/-- Witness for C7 at the record parsed from `"Hello@world.com"`. -/
theorem email_recv_send_roundtrip_witness :
    email_recv (email_send ⟨[72, 101, 108, 108, 111],
        [119, 111, 114, 108, 100, 46, 99, 111, 109]⟩) =
      ⟨[72, 101, 108, 108, 111], [119, 111, 114, 108, 100, 46, 99, 111, 109]⟩ :=
  email_recv_send_roundtrip
    ⟨[72, 101, 108, 108, 111], [119, 111, 114, 108, 100, 46, 99, 111, 109]⟩
    (by decide) (by decide) (by decide) (by decide)

/-- Claim C8 (confirmed): the domain-only comparison ignores the local field
entirely — records with identical domains compare equal under
`domain_cmp_internal` no matter what their local parts are. -/
theorem domain_cmp_internal_ignores_local (a b : EmailAddress)
    (h : a.domain = b.domain) : domain_cmp_internal a b = 0 := by
  simp [domain_cmp_internal, h, strcasecmp_self]

/-- Witness for C8 with equal domains and different local parts. -/
theorem domain_cmp_internal_ignores_local_witness :
    domain_cmp_internal ⟨[65, 108, 105, 99, 101], [120, 46, 99, 111, 109]⟩
      ⟨[66, 111, 98], [120, 46, 99, 111, 109]⟩ = 0 :=
  domain_cmp_internal_ignores_local
    ⟨[65, 108, 105, 99, 101], [120, 46, 99, 111, 109]⟩
    ⟨[66, 111, 98], [120, 46, 99, 111, 109]⟩ rfl

/-- Claim C9 (code bug, evaluated at the failing input): `email_in` performs
no length check whatsoever — on an input whose local part is 128 bytes of
`'B'` (one over the 127-byte field capacity) it raises no construction
error and returns a record carrying the full 128-byte local part, which in C
is `strcpy`-ed past the end of the 128-byte `local` array into the adjacent
`domain` field. -/
theorem email_in_accepts_over_capacity :
    email_in overCapacityInput =
      some ⟨List.replicate 128 66, [99, 46, 100]⟩ ∧
    127 < (List.replicate 128 66).length := by
  set_option maxRecDepth 100000 in decide

/-- Claim C10 (confirmed): `email_recv` applies no validation at all — for
every pair of NUL-free strings within the 127-byte capacity presented as the
two message fields, decoding succeeds and stores exactly those strings, even
when a string is empty, contains the separator 64, or contains bytes the
classifier rejects.  The data-model invariants therefore hold only for
parse-constructed records. -/
theorem email_recv_no_validation (l d : List Nat)
    (h1 : 0 ∉ l) (h2 : 0 ∉ d) (h3 : l.length ≤ 127) (h4 : d.length ≤ 127) :
    email_recv (l ++ 0 :: (d ++ [0])) = ⟨l, d⟩ := by
  simp only [email_recv]
  rw [readString_append _ _ h1]
  rw [readString_append _ _ h2]

/-- Witness for C10: the decoded local `[64, 32]` contains the separator and
a classifier-invalid space, and the decoded domain is empty, yet decoding
succeeds and returns exactly these strings. -/
theorem email_recv_no_validation_witness :
    email_recv ([64, 32] ++ 0 :: ([] ++ [0])) = ⟨[64, 32], []⟩ :=
  email_recv_no_validation [64, 32] [] (by decide) (by decide) (by decide) (by decide)
